import Mathlib

/-!
Shallow embedding of the rule-based extraction core of the
HarmonyTasksAssesment repository (`utils.py`, `schemas.py` and the
rule-extraction path of `extract.py`), together with theorems settling the
frozen claims about it.

Modelling conventions:
* Python `str` is Lean `String` (`List Char`); `.upper()` / `.lower()` are
  modelled ASCII-wise, which is all the source's keyword matching exercises.
* Python `float` is modelled as `ℚ`.  A Python float literal is, where the
  exact IEEE-754 double value matters, written as its exact rational value.
* `re` patterns used by the source are embedded as specialised recursive
  matchers; each matcher's doc comment names the pattern it embeds.  The
  patterns at hand (`NUMBER \s* UNIT \b`) are deterministic: the greedy
  choices of `\d+`, `(?:[.,]\d+)?` and `\s*` can never be backtracked into a
  successful match when the greedy parse fails, because the characters a
  shorter greedy parse leaves behind (a digit, or a separator) can never
  start the remainder of the pattern.  The embeddings therefore commit to
  the greedy parse.
* Python dicts holding the port index are modelled as association lists with
  insertion-order append, overwrite-in-place assignment (`d[k] = v`) and
  `setdefault`.
-/

/-- Python regex word character `\w` (ASCII fragment): `[A-Za-z0-9_]`. -/
def isWordChar (c : Char) : Bool :=
  c.isAlpha || c.isDigit || c = '_'

/-- Python regex whitespace `\s` (ASCII fragment): space, `\t`, `\n`, `\r`,
`\v`, `\f`. -/
def isSpaceChar (c : Char) : Bool :=
  c.toNat = 32 || c.toNat = 9 || c.toNat = 10 || c.toNat = 13 || c.toNat = 11 || c.toNat = 12

/-- Python `str.upper` on an ASCII character. -/
def upChar (c : Char) : Char :=
  if 97 ≤ c.toNat && c.toNat ≤ 122 then Char.ofNat (c.toNat - 32) else c

/-- Python `str.lower` on an ASCII character. -/
def downChar (c : Char) : Char :=
  if 65 ≤ c.toNat && c.toNat ≤ 90 then Char.ofNat (c.toNat + 32) else c

/-- Python `str.upper`, ASCII fragment. -/
def upperStr (s : String) : String := ⟨s.data.map upChar⟩

/-- Python `str.lower`, ASCII fragment. -/
def lowerStr (s : String) : String := ⟨s.data.map downChar⟩

/-- Test that the pattern list is an initial segment of the text list. -/
def startsWithList : List Char → List Char → Bool
  | [], _ => true
  | _ :: _, [] => false
  | p :: ps, c :: cs => p = c && startsWithList ps cs

/-- Returns `true` when the list is empty or starts with a non-word character:
the right half of a `\b` test after a word character. -/
def nextNonWord : List Char → Bool
  | [] => true
  | c :: _ => !isWordChar c

/-- Returns `true` when there is no previous character or it is a non-word
character: the left half of a `\b` test before a word character. -/
def prevNonWord : Option Char → Bool
  | none => true
  | some c => !isWordChar c

/-- Embeds `re.search` of a boundary-anchored literal pattern as a Boolean, for a pattern `pat`
whose first and last characters are word characters (true of every pattern
the source uses this way).  `prev` is the character just before the current
scan position. -/
def boundarySearchAux (pat : List Char) : Option Char → List Char → Bool
  | prev, [] => startsWithList pat [] && prevNonWord prev
  | prev, c :: rest =>
    (startsWithList pat (c :: rest) && prevNonWord prev &&
      nextNonWord ((c :: rest).drop pat.length)) ||
    boundarySearchAux pat (some c) rest

/-- Word-boundary search for `pat` anywhere in `txt`. -/
def wordBoundaryIn (pat : String) (txt : String) : Bool :=
  boundarySearchAux pat.data none txt.data

/-- Plain substring search: Python `pat in txt`, and `re.search` of a
literal pattern with no boundary anchors. -/
def subSearch (pat : List Char) : List Char → Bool
  | [] => startsWithList pat []
  | c :: rest => startsWithList pat (c :: rest) || subSearch pat rest

/-- Python `pat in txt` on strings. -/
def containsSub (pat : String) (txt : String) : Bool :=
  subSearch pat.data txt.data

/-- Embeds `utils.VALID_INCOTERMS` (a Python `set`; the list order is immaterial to
every observable below because each member is tested independently). -/
def VALID_INCOTERMS : List String :=
  ["FOB", "CIF", "CFR", "EXW", "DDP", "DAP", "FCA", "CPT", "CIP", "DPU"]

/-- Embeds `utils.parse_incoterm`: upper-case the text, collect the incoterms that
occur with word boundaries, return `None` on zero hits, the term on exactly
one hit, `"FOB"` on several. -/
def parse_incoterm (text : String) : Option String :=
  if text = "" then none
  else
    let txt := upperStr text
    let found := VALID_INCOTERMS.filter (fun inc => wordBoundaryIn inc txt)
    match found with
    | [] => none
    | [inc] => some inc
    | _ => some "FOB"

/-- Longest run of ASCII digits at the front of the list (`\d+`, greedy),
with the remainder. -/
def takeDigits : List Char → List Char × List Char
  | [] => ([], [])
  | c :: rest =>
    if c.isDigit then
      let p := takeDigits rest
      (c :: p.1, p.2)
    else ([], c :: rest)

/-- Greedy `\s*`. -/
def dropSpaces (cs : List Char) : List Char := cs.dropWhile isSpaceChar

/-- Tests whether some unit of the list, tried in order, matches at
the front of `cs` with a word boundary after it?  (Only `\b` follows the
alternation in the source patterns, so alternation backtracking reduces to
this per-unit test.) -/
def unitMatch (units : List String) (cs : List Char) : Bool :=
  units.any (fun u => startsWithList u.data cs && nextNonWord (cs.drop u.data.length))

/-- Try the pattern `(\d+(?:[\.,]\d+)?)\s*(?:UNITS)\b` at the current
position; on success return the characters of capture group 1. -/
def matchNumUnitAt (units : List String) (cs : List Char) : Option (List Char) :=
  let p := takeDigits cs
  if p.1 = [] then none
  else
    let q :=
      match p.2 with
      | c :: r2 =>
        if c = '.' || c = ',' then
          let f := takeDigits r2
          if f.1 = [] then (p.1, p.2) else (p.1 ++ c :: f.1, f.2)
        else (p.1, p.2)
      | [] => (p.1, p.2)
    if unitMatch units (dropSpaces q.2) then some q.1 else none

/-- Embeds `re.search` of `(\d+(?:[\.,]\d+)?)\s*(?:UNITS)\b`: leftmost starting
position wins. -/
def searchNumUnit (units : List String) : List Char → Option (List Char)
  | [] => none
  | c :: rest =>
    match matchNumUnitAt units (c :: rest) with
    | some g => some g
    | none => searchNumUnit units rest

/-- Digit characters to the natural number they denote. -/
def digitsToNat (ds : List Char) : Nat :=
  ds.foldl (fun n c => 10 * n + (c.toNat - 48)) 0

/-- Python `float(group(1).replace(",", "."))` for a capture of the form
`digits` or `digits [.,] digits`. -/
def groupToRat (g : List Char) : ℚ :=
  let p := takeDigits g
  match p.2 with
  | [] => (digitsToNat p.1 : ℚ)
  | _ :: fs => (digitsToNat p.1 : ℚ) + (digitsToNat fs : ℚ) / (10 : ℚ) ^ fs.length

/-- The unit alternatives of the three unit regexes in
`utils.parse_weight_kg` (they are matched with `re.I`; the embedding
lower-cases the text instead). -/
def kgUnits : List String := ["kg", "kgs"]

def tonUnits : List String := ["tonne", "tonnes", "t", "mt"]

def lbUnits : List String := ["lb", "lbs"]

/-- Embeds `re.search` of the pattern `\b0\s*(?:kg|kgs|lb|lbs|tonne|t|mt)\b` — the
explicit-zero pattern of `utils.parse_weight_kg`, matched case-sensitively
on the original text.  `prev` is the character before the scan position. -/
def zeroSearchAux : Option Char → List Char → Bool
  | _, [] => false
  | prev, c :: rest =>
    (c = '0' && prevNonWord prev &&
      unitMatch ["kg", "kgs", "lb", "lbs", "tonne", "t", "mt"] (dropSpaces rest)) ||
    zeroSearchAux (some c) rest

/-- The placeholder phrases of `utils.parse_weight_kg`, lower-cased; the
source matches them with `\b` anchors and `re.I`. -/
def placeholderIn (text : String) : Bool :=
  (["tbd", "n/a", "to be confirmed", "to be advised"]).any
    (fun p => wordBoundaryIn p (lowerStr text))

/-- Embeds `utils.parse_weight_kg`: kilograms, then tonnes (× 1000), then pounds
(× 0.453592), then the explicit-zero pattern, then the placeholder check
(which, like the fall-through, yields `None`). -/
def parse_weight_kg (text : String) : Option ℚ :=
  if text = "" then none
  else
    match searchNumUnit kgUnits (lowerStr text).data with
    | some g => some (groupToRat g)
    | none =>
      match searchNumUnit tonUnits (lowerStr text).data with
      | some g => some (groupToRat g * 1000)
      | none =>
        match searchNumUnit lbUnits (lowerStr text).data with
        | some g => some (groupToRat g * (453592 / 1000000 : ℚ))
        | none =>
          if zeroSearchAux none text.data then some 0
          else if placeholderIn text then none
          else none

/-- Embeds `utils.parse_cbm`: single pattern
`(\d+(?:[\.,]\d+)?)\s*(?:cbm|m3|cubic meters|cubic metres)\b` with `re.I`. -/
def parse_cbm (text : String) : Option ℚ :=
  if text = "" then none
  else
    match searchNumUnit ["cbm", "m3", "cubic meters", "cubic metres"] (lowerStr text).data with
    | some g => some (groupToRat g)
    | none => none

/-- The negation phrases of `utils.detect_dangerous`, in source order. -/
def NEGATIVE_PHRASES : List String :=
  ["non-hazardous", "non hazardous", "non-dg", "not dangerous", "non dg"]

/-- Embeds `re.search` of `class \d`: the literal `class ` followed by a
digit, anywhere. -/
def classDigitSearch : List Char → Bool
  | [] => false
  | c :: rest =>
    (startsWithList ['c', 'l', 'a', 's', 's', ' '] (c :: rest) &&
      (match (c :: rest).drop 6 with
       | d :: _ => d.isDigit
       | [] => false)) ||
    classDigitSearch rest

/-- Embeds `utils.detect_dangerous`: lower-case the text; any negation phrase
(substring test) forces `False`; otherwise any of the keyword patterns
`dg`, `dangerous`, `hazardous`, `class \d`, `imo`, `imdg` — all searched
without word boundaries — yields `True`. -/
def detect_dangerous (text : String) : Bool :=
  if text = "" then false
  else
    let txt := lowerStr text
    if NEGATIVE_PHRASES.any (fun n => containsSub n txt) then false
    else
      containsSub "dg" txt || containsSub "dangerous" txt || containsSub "hazardous" txt ||
        classDigitSearch txt.data || containsSub "imo" txt || containsSub "imdg" txt

/-- Python truthiness-and-upper-startswith test
`code and code.upper().startswith("IN")` on an optional code. -/
def codeStartsIN : Option String → Bool
  | none => false
  | some s => s ≠ "" && startsWithList "IN".data (upperStr s).data

/-- Embeds `utils.choose_product_line`: destination `IN` prefix wins, then origin
`IN` prefix, else `None`. -/
def choose_product_line (origin_code dest_code : Option String) : Option String :=
  if codeStartsIN dest_code then some "pl_sea_import_lcl"
  else if codeStartsIN origin_code then some "pl_sea_export_lcl"
  else none

/-- Python `a or b` specialised to `Optional[float]` operands: `None` and
`0.0` are falsy, so either one makes the expression evaluate to `b`. -/
def pyOrFloat (a b : Option ℚ) : Option ℚ :=
  match a with
  | some x => if x = 0 then b else some x
  | none => b

/-- The cargo-weight resolution of `extract.rule_extract`:
`parse_weight_kg(body) or parse_weight_kg(subj)`. -/
def rule_weight (subj body : String) : Option ℚ :=
  pyOrFloat (parse_weight_kg body) (parse_weight_kg subj)

/-- The cargo-volume resolution of `extract.rule_extract`:
`parse_cbm(body) or parse_cbm(subj)`. -/
def rule_cbm (subj body : String) : Option ℚ :=
  pyOrFloat (parse_cbm body) (parse_cbm subj)

/-- The incoterm resolution of `extract.rule_extract`:
`parse_incoterm(body) or parse_incoterm(subj) or "FOB"` (a non-empty string
is always truthy, so this is plain option-fallback with default). -/
def rule_incoterm (subj body : String) : String :=
  match parse_incoterm body with
  | some i => i
  | none =>
    match parse_incoterm subj with
    | some i => i
    | none => "FOB"

/-- A Python `dict[str, str]` as an insertion-ordered association list. -/
abbrev Dict := List (String × String)

/-- Python `d.get(k)` / `d[k]`. -/
def dget (d : Dict) (k : String) : Option String :=
  match d with
  | [] => none
  | p :: rest => if p.1 = k then some p.2 else dget rest k

/-- Python `d[k] = v`: overwrite in place when the key exists, append
otherwise. -/
def dset (d : Dict) (k v : String) : Dict :=
  match d with
  | [] => [(k, v)]
  | p :: rest => if p.1 = k then (p.1, v) :: rest else p :: dset rest k v

/-- Python `d.setdefault(k, v)`: insert only when the key is absent. -/
def dsetdefault (d : Dict) (k v : String) : Dict :=
  match dget d k with
  | some _ => d
  | none => d ++ [(k, v)]

/-- One entry of the port reference table; `entry.get("code")` /
`entry.get("name")` may be absent. -/
structure PortEntry where
  code : Option String
  name : Option String
deriving DecidableEq

/-- The split class of the `re.split` pattern in `build_port_index`
(whitespace, then the character range comma(44)–slash(47), i.e. comma,
hyphen, dot, slash — the class is written with a `,`-to-slash range in the
source). -/
def isSplitChar (c : Char) : Bool :=
  isSpaceChar c || (44 ≤ c.toNat && c.toNat ≤ 47)

/-- The `re.split` on runs of `isSplitChar` characters, restricted to its
non-empty pieces (the empty pieces the Python call can produce at the ends
are discarded by the caller's `len(tok) >= 2` test anyway).  `cur`
accumulates the current token reversed. -/
def splitTokensAux : List Char → List Char → List (List Char)
  | [], cur => if cur = [] then [] else [cur.reverse]
  | c :: rest, cur =>
    if isSplitChar c then
      if cur = [] then splitTokensAux rest []
      else cur.reverse :: splitTokensAux rest []
    else splitTokensAux rest (c :: cur)

def splitTokens (cs : List Char) : List (List Char) := splitTokensAux cs []

/-- The loop body of `utils.build_port_index` for one reference entry:
skip entries with a falsy code or name; otherwise assign
`code_to_name[code] = name` and `name_to_code[name.lower()] = code`
(both plain overwriting assignments), then `setdefault` every split token
of length ≥ 2 of the lowercased name into `name_to_code`.
The accumulator is the pair `(name_to_code, code_to_name)`. -/
def processEntry (acc : Dict × Dict) (entry : PortEntry) : Dict × Dict :=
  match entry.code, entry.name with
  | some code, some name =>
    if code = "" || name = "" then acc
    else
      let c2n := dset acc.2 code name
      let low := lowerStr name
      let n2c := dset acc.1 low code
      let n2c :=
        (splitTokens low.data).foldl
          (fun d tok => if 2 ≤ tok.length then dsetdefault d ⟨tok⟩ code else d) n2c
      (n2c, c2n)
  | _, _ => acc

/-- Embeds `utils.build_port_index`: fold the loop body over the reference list,
starting from two empty dicts. -/
def build_port_index (ref : List PortEntry) : Dict × Dict :=
  ref.foldl processEntry ([], [])

/-- A raw Python value arriving at a pydantic validator (`pre=True`), as
far as the orchestrator can produce one: `None`, a float (exact rational
model), a string, or a bool. -/
inductive RawVal where
  | vnone
  | vnum (q : ℚ)
  | vstr (s : String)
  | vbool (b : Bool)
deriving DecidableEq

/-- Python `float(s)` on a string: strip whitespace, optional sign,
`digits [. digits]` or `. digits`, optional exponent.  (The special values
`inf`/`nan` and digit-group underscores have no rational meaning and are
outside the model; no claim exercises them.)  Returns `none` where Python
raises `ValueError`. -/
def parseSign : List Char → Bool × List Char
  | '+' :: r => (false, r)
  | '-' :: r => (true, r)
  | r => (false, r)

def parseMantissa (cs : List Char) : Option (ℚ × List Char) :=
  let p := takeDigits cs
  match p.2 with
  | '.' :: r2 =>
    let f := takeDigits r2
    if p.1 = [] && f.1 = [] then none
    else some ((digitsToNat p.1 : ℚ) + (digitsToNat f.1 : ℚ) / (10 : ℚ) ^ f.1.length, f.2)
  | _ => if p.1 = [] then none else some ((digitsToNat p.1 : ℚ), p.2)

def parseExponent (cs : List Char) : Option (ℤ × List Char) :=
  match cs with
  | c :: r1 =>
    if c = 'e' || c = 'E' then
      let s := parseSign r1
      let d := takeDigits s.2
      if d.1 = [] then none
      else some (if s.1 then -(digitsToNat d.1 : ℤ) else (digitsToNat d.1 : ℤ), d.2)
    else some (0, cs)
  | [] => some (0, [])

def parseFloatString (s : String) : Option ℚ :=
  let cs := ((s.data.dropWhile isSpaceChar).reverse.dropWhile isSpaceChar).reverse
  let sg := parseSign cs
  match parseMantissa sg.2 with
  | none => none
  | some m =>
    match parseExponent m.2 with
    | none => none
    | some e =>
      if e.2 = [] then some ((if sg.1 then -m.1 else m.1) * (10 : ℚ) ^ e.1)
      else none

/-- Python `float(v)` on a raw value (`float(None)` raises `TypeError`;
both validators test `v is None` first, so that arm is never reached with
`vnone`, modelled as failure all the same). -/
def pyFloat : RawVal → Option ℚ
  | .vnone => none
  | .vnum q => some q
  | .vbool b => some (if b then 1 else 0)
  | .vstr s => parseFloatString s

/-- Round-half-to-even to an integer, the rounding Python's `round` applies
to the (here exactly represented) value. -/
def rhe (q : ℚ) : ℤ :=
  if q - ⌊q⌋ < 1 / 2 then ⌊q⌋
  else if 1 / 2 < q - ⌊q⌋ then ⌊q⌋ + 1
  else if ⌊q⌋ % 2 = 0 then ⌊q⌋ else ⌊q⌋ + 1

/-- Python `round(q, 2)` on the exact rational model. -/
def round2 (q : ℚ) : ℚ := (rhe (q * 100) : ℚ) / 100

/-- The `round_weight` validator of `schemas.ExtractionResult`:
`None` passes through, otherwise `round(float(v), 2)`, any failure
coerced to `None`. -/
def round_weight (v : RawVal) : Option ℚ :=
  match v with
  | .vnone => none
  | _ =>
    match pyFloat v with
    | some q => some (round2 q)
    | none => none

/-- The `round_cbm` validator of `schemas.ExtractionResult` (same body as
`round_weight`). -/
def round_cbm (v : RawVal) : Option ℚ := round_weight v

/-- Python `str(v)` for the raw values at hand.  (The decimal rendering of
a float is irrelevant to every claim; it is modelled by the rational's
`toString`.) -/
def pyStr : RawVal → String
  | .vnone => "None"
  | .vnum q => toString q
  | .vstr s => s
  | .vbool b => if b then "True" else "False"

/-- Python `str.strip()` (whitespace at both ends). -/
def stripStr (s : String) : String :=
  ⟨((s.data.dropWhile isSpaceChar).reverse.dropWhile isSpaceChar).reverse⟩

/-- The `norm_incoterm` validator of `schemas.ExtractionResult`:
`None` passes through, otherwise `str(v).strip().upper()`, with the empty
string coerced to `None` (`return s or None`). -/
def norm_incoterm (v : RawVal) : Option String :=
  match v with
  | .vnone => none
  | _ =>
    let s := upperStr (stripStr (pyStr v))
    if s = "" then none else some s

/-- A finalized extraction record, the shape `ExtractionResult` holds after
validation. -/
structure FinalRecord where
  id : String
  product_line : Option String
  origin_port_code : Option String
  origin_port_name : Option String
  destination_port_code : Option String
  destination_port_name : Option String
  incoterm : Option String
  cargo_weight_kg : Option ℚ
  cargo_cbm : Option ℚ
  is_dangerous : Bool
deriving DecidableEq

/-- A raw record as handed to `ExtractionResult(**raw)`: the three
validated fields carry raw Python values; the plain string fields have no
validator and pass through. -/
structure RawRecord where
  id : String
  product_line : Option String
  origin_port_code : Option String
  origin_port_name : Option String
  destination_port_code : Option String
  destination_port_name : Option String
  incoterm : RawVal
  cargo_weight_kg : RawVal
  cargo_cbm : RawVal
  is_dangerous : Bool
deriving DecidableEq

/-- The Normalizer: `ExtractionResult(**raw)` running the three validators
(`is_dangerous` defaults to `False` at construction; here the field is
already a `Bool`). -/
def normalizeRecord (r : RawRecord) : FinalRecord where
  id := r.id
  product_line := r.product_line
  origin_port_code := r.origin_port_code
  origin_port_name := r.origin_port_name
  destination_port_code := r.destination_port_code
  destination_port_name := r.destination_port_name
  incoterm := norm_incoterm r.incoterm
  cargo_weight_kg := round_weight r.cargo_weight_kg
  cargo_cbm := round_cbm r.cargo_cbm
  is_dangerous := r.is_dangerous

/-- Re-embed an optional float into a raw value (what a finalized field
looks like when fed to the validators a second time). -/
def optQToRaw : Option ℚ → RawVal
  | none => .vnone
  | some q => .vnum q

/-- Re-embed an optional string into a raw value. -/
def optSToRaw : Option String → RawVal
  | none => .vnone
  | some s => .vstr s

/-- A finalized record viewed again as a raw record. -/
def recordToRaw (r : FinalRecord) : RawRecord where
  id := r.id
  product_line := r.product_line
  origin_port_code := r.origin_port_code
  origin_port_name := r.origin_port_name
  destination_port_code := r.destination_port_code
  destination_port_name := r.destination_port_name
  incoterm := optSToRaw r.incoterm
  cargo_weight_kg := optQToRaw r.cargo_weight_kg
  cargo_cbm := optQToRaw r.cargo_cbm
  is_dangerous := r.is_dangerous

/-- An input email record. -/
structure Email where
  id : String
  subject : String
  body : String
deriving DecidableEq

/-- The all-null substitute record `extract.main` builds in its `except`
arm for a failed email. -/
def nullRecord (i : String) : FinalRecord where
  id := i
  product_line := none
  origin_port_code := none
  origin_port_name := none
  destination_port_code := none
  destination_port_name := none
  incoterm := none
  cargo_weight_kg := none
  cargo_cbm := none
  is_dangerous := false

/-- The batch loop of `extract.main`: one output per input email, in
order; the whole per-email pipeline (extraction plus validation, which may
raise) is abstracted as `step`; an exception is replaced by the all-null
record for that email's id.  (The port index, fuzzy matching and the LLM
fallback live inside `step`; the claim under test is about the loop.) -/
def mainBatch (step : Email → Except String FinalRecord) (emails : List Email) : List FinalRecord :=
  emails.map (fun e =>
    match step e with
    | .ok r => r
    | .error _ => nullRecord e.id)

/-- C5: the product-line rule checks the destination code's `IN` prefix
(case-insensitively, on a truthy code) strictly before the origin code's,
returning the import line, the export line, or `none`; so when both codes
start with `IN` the import classification wins.  The three spec examples
are included. -/
theorem C5_product_line_priority :
    (∀ o d : Option String, codeStartsIN d = true →
      choose_product_line o d = some "pl_sea_import_lcl") ∧
    (∀ o d : Option String, codeStartsIN d = false → codeStartsIN o = true →
      choose_product_line o d = some "pl_sea_export_lcl") ∧
    (∀ o d : Option String, codeStartsIN d = false → codeStartsIN o = false →
      choose_product_line o d = none) ∧
    choose_product_line none (some "INNSA") = some "pl_sea_import_lcl" ∧
    choose_product_line (some "INNSA") (some "USLAX") = some "pl_sea_export_lcl" ∧
    choose_product_line (some "USLAX") (some "USNYC") = none := by
  refine ⟨?_, ?_, ?_, by decide, by decide, by decide⟩
  · intro o d h
    simp [choose_product_line, h]
  · intro o d h1 h2
    simp [choose_product_line, h1, h2]
  · intro o d h1 h2
    simp [choose_product_line, h1, h2]

/-- Witness for C5 at concrete inputs, one per branch; the first also
exercises the both-codes-`IN` tie (import wins) and case-insensitivity. -/
theorem C5_product_line_priority_witness :
    choose_product_line (some "INNSA") (some "inmaa") = some "pl_sea_import_lcl" ∧
    choose_product_line (some "innsa") none = some "pl_sea_export_lcl" ∧
    choose_product_line (some "") (some "USNYC") = none :=
  ⟨C5_product_line_priority.1 (some "INNSA") (some "inmaa") (by decide),
   C5_product_line_priority.2.1 (some "innsa") none (by decide) (by decide),
   C5_product_line_priority.2.2.1 (some "") (some "USNYC") (by decide) (by decide)⟩

/-- C4 (code bug, evaluated at the failing input): the body text `"0 kg"`
parses to the explicit zero `0.0`, yet `rule_extract`'s
`parse_weight_kg(body) or parse_weight_kg(subj)` treats `0.0` as falsy, so
a subject of `"5 kg"` overrides the body's zero (and an empty subject turns
the parsed body zero into `None`), contradicting body-over-subject
precedence for an explicitly parsed zero. -/
theorem C4_body_zero_lost_to_subject :
    parse_weight_kg "0 kg" = some 0 ∧
    rule_weight "5 kg" "0 kg" = some 5 ∧
    rule_weight "" "0 kg" = none := by
  refine ⟨?_, ?_, ?_⟩ <;>
    simp +decide [rule_weight, pyOrFloat, parse_weight_kg, searchNumUnit, matchNumUnitAt,
      takeDigits, dropSpaces, unitMatch, groupToRat, digitsToNat, lowerStr, downChar,
      kgUnits, tonUnits, lbUnits, startsWithList, nextNonWord, isWordChar, isSpaceChar]

/-- C9: the weight validator rounds the Python literal `12.345` — i.e. its
IEEE-754 double value `6949617174986097 / 2^49`, which is slightly above
12.345 — to `12.35`; passes `None` through; and coerces the non-convertible
string `"abc"` to `None` instead of raising. -/
theorem C9_round_weight_cases :
    round_weight (.vnum (6949617174986097 / 562949953421312)) = some (1235 / 100) ∧
    round_weight .vnone = none ∧
    round_weight (.vstr "abc") = none := by
  refine ⟨?_, rfl, by decide⟩
  have hfl : (⌊(6949617174986097 / 562949953421312 : ℚ) * 100⌋ : ℤ) = 1234 := by
    rw [Int.floor_eq_iff]
    norm_num
  simp only [round_weight, pyFloat, round2, rhe, hfl]
  norm_num

/-- C3: whenever one of the five negation phrases occurs as a substring of
the lowercased text, the dangerous-goods detector returns `false`, for
every text — in particular regardless of any positive keyword elsewhere in
it; the spec's concrete example returns `false`, and the empty text returns
`false`. -/
theorem C3_negation_precedence :
    (∀ text : String,
      (∃ n ∈ NEGATIVE_PHRASES, containsSub n (lowerStr text) = true) →
      detect_dangerous text = false) ∧
    detect_dangerous "This shipment is non-hazardous but contains Class 9 materials" = false ∧
    detect_dangerous "" = false := by
  refine ⟨?_, by decide, by decide⟩
  intro text h
  rcases h with ⟨n, hn, hc⟩
  have hany : NEGATIVE_PHRASES.any (fun n => containsSub n (lowerStr text)) = true :=
    List.any_eq_true.2 ⟨n, hn, hc⟩
  unfold detect_dangerous
  split
  · rfl
  · simp only [hany, if_true]

/-- Witness for C3: a text carrying both a negation phrase and several
positive keywords still comes out `false`. -/
theorem C3_negation_precedence_witness :
    detect_dangerous "cargo is non-dg, no IMO class 3" = false :=
  C3_negation_precedence.1 "cargo is non-dg, no IMO class 3" ⟨"non-dg", by decide, by decide⟩

/-- C10 (implicit): the positive keywords are searched as bare substrings
with no word boundaries, so any text whose lowercase form contains `dg` —
even inside an unrelated word — and contains none of the negation phrases
is flagged dangerous; e.g. `"badge"` and `"edge"`. -/
theorem C10_dg_substring_no_boundary :
    (∀ text : String,
      containsSub "dg" (lowerStr text) = true →
      (∀ n ∈ NEGATIVE_PHRASES, containsSub n (lowerStr text) = false) →
      detect_dangerous text = true) ∧
    detect_dangerous "badge" = true ∧
    detect_dangerous "edge" = true := by
  refine ⟨?_, by decide, by decide⟩
  intro text hdg hneg
  have htext : text ≠ "" := by
    intro he
    subst he
    simp [containsSub, lowerStr, subSearch, startsWithList] at hdg
  have hany : NEGATIVE_PHRASES.any (fun n => containsSub n (lowerStr text)) = false := by
    rw [List.any_eq_false]
    intro n hn
    simp [hneg n hn]
  unfold detect_dangerous
  rw [if_neg htext]
  simp only [hany, Bool.false_eq_true, if_false, hdg, Bool.true_or]

/-- Witness for C10: `dg` buried inside `badge`, with no negation phrase
present, flags the shipment. -/
theorem C10_dg_substring_no_boundary_witness :
    detect_dangerous "crew badge on deck" = true :=
  C10_dg_substring_no_boundary.1 "crew badge on deck" (by decide) (by decide)

/-- C1: the incoterm parser's result is determined by the set of valid
incoterms that occur (case-insensitively, with word boundaries) in the
text: none occurring gives `None`, exactly one gives that (upper-cased)
term — so a text containing only lowercase `cif` gives `"CIF"` — and more
than one distinct term gives `"FOB"`. -/
theorem C1_incoterm_cases :
    (∀ text : String,
      (VALID_INCOTERMS.filter (fun inc => wordBoundaryIn inc (upperStr text)) = [] →
        parse_incoterm text = none) ∧
      (∀ inc, VALID_INCOTERMS.filter (fun inc => wordBoundaryIn inc (upperStr text)) = [inc] →
        parse_incoterm text = some inc) ∧
      (2 ≤ (VALID_INCOTERMS.filter (fun inc => wordBoundaryIn inc (upperStr text))).length →
        parse_incoterm text = some "FOB")) ∧
    parse_incoterm "please quote cif to nhava sheva" = some "CIF" ∧
    parse_incoterm "FOB or CIF?" = some "FOB" ∧
    parse_incoterm "no terms here" = none := by
  refine ⟨?_, by decide, by decide, by decide⟩
  intro text
  by_cases h0 : text = ""
  · subst h0
    have hnil : VALID_INCOTERMS.filter (fun inc => wordBoundaryIn inc (upperStr "")) = [] := by
      decide
    refine ⟨fun _ => rfl, fun inc hf => ?_, fun hl => ?_⟩
    · rw [hnil] at hf
      simp at hf
    · rw [hnil] at hl
      simp at hl
  · refine ⟨fun hf => ?_, fun inc hf => ?_, fun hl => ?_⟩
    · simp only [parse_incoterm, if_neg h0, hf]
    · simp only [parse_incoterm, if_neg h0, hf]
    · rcases he : VALID_INCOTERMS.filter (fun inc => wordBoundaryIn inc (upperStr text)) with
        _ | ⟨a, _ | ⟨b, l⟩⟩
      · rw [he] at hl
        simp at hl
      · rw [he] at hl
        simp at hl
      · simp only [parse_incoterm, if_neg h0, he]

/-- Witness for C1, one concrete text per branch (zero, one — from
lowercase input —, several). -/
theorem C1_incoterm_cases_witness :
    parse_incoterm "hello world" = none ∧
    parse_incoterm "delivery ddp munich" = some "DDP" ∧
    parse_incoterm "exw vs dap" = some "FOB" :=
  ⟨(C1_incoterm_cases.1 "hello world").1 (by decide),
   (C1_incoterm_cases.1 "delivery ddp munich").2.1 "DDP" (by decide),
   (C1_incoterm_cases.1 "exw vs dap").2.2 (by decide)⟩

/-- C2: the weight parser tries the unit regexes in the fixed order
kilograms (value as-is), tonnes (× 1000), pounds (× 0.453592): the first
search that succeeds determines the result and the later searches are not
consulted; when all three fail, a match of the explicit-zero pattern gives
`0.0` and otherwise — placeholder phrase or not — the result is `None`.
The spec's concrete examples follow: `"2 t"` parses to `2000`, `"10 lbs"`
to `4.53592` (which 2-decimal rounding takes to `4.54`), `"0 kg"` to `0`,
and `"TBD"` to `None`. -/
theorem C2_weight_unit_order :
    (∀ (text : String) (g : List Char),
      searchNumUnit kgUnits (lowerStr text).data = some g →
      parse_weight_kg text = some (groupToRat g)) ∧
    (∀ (text : String) (g : List Char),
      searchNumUnit kgUnits (lowerStr text).data = none →
      searchNumUnit tonUnits (lowerStr text).data = some g →
      parse_weight_kg text = some (groupToRat g * 1000)) ∧
    (∀ (text : String) (g : List Char),
      searchNumUnit kgUnits (lowerStr text).data = none →
      searchNumUnit tonUnits (lowerStr text).data = none →
      searchNumUnit lbUnits (lowerStr text).data = some g →
      parse_weight_kg text = some (groupToRat g * (453592 / 1000000 : ℚ))) ∧
    (∀ text : String,
      searchNumUnit kgUnits (lowerStr text).data = none →
      searchNumUnit tonUnits (lowerStr text).data = none →
      searchNumUnit lbUnits (lowerStr text).data = none →
      zeroSearchAux none text.data = true →
      parse_weight_kg text = some 0) ∧
    (∀ text : String,
      searchNumUnit kgUnits (lowerStr text).data = none →
      searchNumUnit tonUnits (lowerStr text).data = none →
      searchNumUnit lbUnits (lowerStr text).data = none →
      zeroSearchAux none text.data = false →
      parse_weight_kg text = none) ∧
    parse_weight_kg "2 t" = some 2000 ∧
    parse_weight_kg "10 lbs" = some (453592 / 100000 : ℚ) ∧
    round2 (453592 / 100000 : ℚ) = 454 / 100 ∧
    parse_weight_kg "0 kg" = some 0 ∧
    parse_weight_kg "TBD" = none := by
  have hne : ∀ text : String, ∀ g : List Char,
      searchNumUnit kgUnits (lowerStr text).data = some g ∨
      searchNumUnit tonUnits (lowerStr text).data = some g ∨
      searchNumUnit lbUnits (lowerStr text).data = some g →
      text ≠ "" := by
    intro text g h he
    subst he
    rcases h with h | h | h <;> simp [lowerStr] at h <;> cases h
  refine ⟨?_, ?_, ?_, ?_, ?_, ?_, ?_, ?_, ?_, ?_⟩
  · intro text g h1
    rw [parse_weight_kg, if_neg (hne text g (Or.inl h1)), h1]
  · intro text g h1 h2
    rw [parse_weight_kg, if_neg (hne text g (Or.inr (Or.inl h2))), h1, h2]
  · intro text g h1 h2 h3
    rw [parse_weight_kg, if_neg (hne text g (Or.inr (Or.inr h3))), h1, h2, h3]
  · intro text h1 h2 h3 hz
    by_cases h0 : text = ""
    · subst h0
      cases hz
    · rw [parse_weight_kg, if_neg h0, h1, h2, h3]
      simp [hz]
  · intro text h1 h2 h3 hz
    by_cases h0 : text = ""
    · subst h0
      rfl
    · rw [parse_weight_kg, if_neg h0, h1, h2, h3]
      simp only [hz, Bool.false_eq_true, if_false]
      split <;> rfl
  · simp +decide [parse_weight_kg, searchNumUnit, matchNumUnitAt, takeDigits, dropSpaces,
      unitMatch, groupToRat, digitsToNat, lowerStr, downChar, kgUnits, tonUnits, lbUnits,
      startsWithList, nextNonWord, isWordChar, isSpaceChar]
    norm_num
  · simp +decide [parse_weight_kg, searchNumUnit, matchNumUnitAt, takeDigits, dropSpaces,
      unitMatch, groupToRat, digitsToNat, lowerStr, downChar, kgUnits, tonUnits, lbUnits,
      startsWithList, nextNonWord, isWordChar, isSpaceChar]
    norm_num
  · have hfl : (⌊(453592 / 100000 : ℚ) * 100⌋ : ℤ) = 453 := by
      rw [Int.floor_eq_iff]
      norm_num
    simp only [round2, rhe, hfl]
    norm_num
  · simp +decide [parse_weight_kg, searchNumUnit, matchNumUnitAt, takeDigits, dropSpaces,
      unitMatch, groupToRat, digitsToNat, lowerStr, downChar, kgUnits, tonUnits, lbUnits,
      startsWithList, nextNonWord, isWordChar, isSpaceChar]
  · decide

/-- Witness for C2: each reachable conditional branch applied at a
concrete text (the kilogram, tonne, pound and no-match branches; the
explicit-zero branch of the source is subsumed by the kilogram regex on
every input, so no input reaches it with its hypotheses true). -/
theorem C2_weight_unit_order_witness :
    parse_weight_kg "12 kg" = some (groupToRat ['1', '2']) ∧
    parse_weight_kg "3 t" = some (groupToRat ['3'] * 1000) ∧
    parse_weight_kg "1 lb" = some (groupToRat ['1'] * (453592 / 1000000 : ℚ)) ∧
    parse_weight_kg "no weight given" = none :=
  ⟨C2_weight_unit_order.1 "12 kg" ['1', '2'] (by decide),
   C2_weight_unit_order.2.1 "3 t" ['3'] (by decide) (by decide),
   C2_weight_unit_order.2.2.1 "1 lb" ['1'] (by decide) (by decide) (by decide),
   C2_weight_unit_order.2.2.2.2.1 "no weight given" (by decide) (by decide) (by decide) (by decide)⟩

theorem dget_append_left {d d2 : Dict} {k c : String} (h : dget d k = some c) :
    dget (d ++ d2) k = some c := by
  induction d with
  | nil => simp [dget] at h
  | cons p rest ih =>
    rw [List.cons_append]
    unfold dget at h ⊢
    by_cases hp : p.1 = k
    · simpa [hp] using h
    · rw [if_neg hp] at h ⊢
      exact ih h

theorem dget_dset_ne {d : Dict} {k k2 v : String} (hne : k2 ≠ k) :
    dget (dset d k2 v) k = dget d k := by
  induction d with
  | nil => simp [dset, dget, hne]
  | cons p rest ih =>
    unfold dset
    by_cases hp : p.1 = k2
    · rw [if_pos hp]
      unfold dget
      rw [hp]
      rw [if_neg hne, if_neg hne]
    · rw [if_neg hp]
      unfold dget
      by_cases hk : p.1 = k
      · rw [if_pos hk, if_pos hk]
      · rw [if_neg hk, if_neg hk]
        exact ih

theorem dget_dsetdefault {d : Dict} {k k2 v c : String} (h : dget d k = some c) :
    dget (dsetdefault d k2 v) k = some c := by
  unfold dsetdefault
  split
  · exact h
  · exact dget_append_left h

theorem dget_foldl_setdefault (code : String) (toks : List (List Char)) {d : Dict}
    {k c : String} (h : dget d k = some c) :
    dget
      (toks.foldl (fun d tok => if 2 ≤ tok.length then dsetdefault d ⟨tok⟩ code else d) d)
      k = some c := by
  induction toks generalizing d with
  | nil => exact h
  | cons t ts ih =>
    rw [List.foldl_cons]
    apply ih
    split
    · exact dget_dsetdefault h
    · exact h

/-- Processing one later reference entry preserves every existing
`token_to_code` mapping whose key is not that entry's full lowercased
name: the sub-token registrations go through `setdefault` and cannot
overwrite. -/
theorem dget_processEntry {acc : Dict × Dict} {e : PortEntry} {k c : String}
    (h : dget acc.1 k = some c)
    (hk : ∀ name, e.name = some name → k ≠ lowerStr name) :
    dget (processEntry acc e).1 k = some c := by
  unfold processEntry
  rcases e with ⟨eCode, eName⟩
  cases eCode with
  | none => exact h
  | some code =>
    cases eName with
    | none => exact h
    | some name =>
      dsimp only
      split
      · exact h
      · dsimp only
        apply dget_foldl_setdefault
        rw [dget_dset_ne]
        · exact h
        · exact fun hEq => hk name rfl hEq.symm

theorem dget_foldl_processEntry {rest : List PortEntry} {acc : Dict × Dict} {k c : String}
    (h : dget acc.1 k = some c)
    (hk : ∀ e ∈ rest, ∀ name, e.name = some name → k ≠ lowerStr name) :
    dget (rest.foldl processEntry acc).1 k = some c := by
  induction rest generalizing acc with
  | nil => exact h
  | cons e es ih =>
    rw [List.foldl_cons]
    exact ih (dget_processEntry h (fun name hn => hk e (by simp) name hn))
      (fun e2 he2 name hn => hk e2 (List.mem_cons_of_mem e he2) name hn)

/-- C7 counterexample: the claim that a later entry never overwrites an
existing key-to-code mapping is false: the full-name assignment
`name_to_code[name.lower()] = code` is a plain overwrite.  After the first
entry the key `"foo"` maps to `"AAA"`; processing a second entry with the
same name remaps it to `"BBB"`. -/
theorem C7_full_name_assignment_overwrites :
    dget (build_port_index [⟨some "AAA", some "Foo"⟩]).1 "foo" = some "AAA" ∧
    dget (build_port_index [⟨some "AAA", some "Foo"⟩, ⟨some "BBB", some "Foo"⟩]).1 "foo" =
      some "BBB" := by
  decide

/-- C7 (amended): first-registration-wins holds for everything except the
full-name assignment: once a key is mapped in `token_to_code`, processing
any later entries leaves that mapping intact provided the key is not the
full lowercased name of one of those later entries (sub-token
registrations, which use `setdefault`, can never overwrite it). -/
theorem C7_first_registration_wins_amended (ref rest : List PortEntry) (k c : String)
    (h : dget (build_port_index ref).1 k = some c)
    (hk : ∀ e ∈ rest, ∀ name, e.name = some name → k ≠ lowerStr name) :
    dget (build_port_index (ref ++ rest)).1 k = some c := by
  unfold build_port_index at h ⊢
  rw [List.foldl_append]
  exact dget_foldl_processEntry h hk

/-- Witness for C7 (amended): the token `foo` registered by the first
entry survives a later entry that re-registers the sub-token `bar` and
whose full name is not `foo`. -/
theorem C7_first_registration_wins_amended_witness :
    dget (build_port_index ([⟨some "AAA", some "Foo Bar"⟩] ++ [⟨some "BBB", some "Bar"⟩])).1
      "foo" = some "AAA" :=
  C7_first_registration_wins_amended [⟨some "AAA", some "Foo Bar"⟩] [⟨some "BBB", some "Bar"⟩]
    "foo" "AAA" (by decide)
    (by
      intro e he name hn
      rw [List.mem_singleton] at he
      subst he
      injection hn with hn2
      subst hn2
      decide)

/-- C6: the batch loop emits exactly one record per input email, in input
order; ids match (given that a successful per-email step reports the
email's own id, as `rule_extract` does); a step failure for one email is
replaced in place by the all-null record for that email's id; and a
successful record passes through unchanged, so one failure never aborts the
batch nor affects other records. -/
theorem C6_batch_fault_isolation (step : Email → Except String FinalRecord)
    (emails : List Email) :
    (mainBatch step emails).length = emails.length ∧
    ((∀ e r, step e = .ok r → r.id = e.id) →
      (mainBatch step emails).map FinalRecord.id = emails.map Email.id) ∧
    (∀ (i : ℕ) (e : Email) (err : String), emails[i]? = some e → step e = .error err →
      (mainBatch step emails)[i]? = some (nullRecord e.id)) ∧
    (∀ (i : ℕ) (e : Email) (r : FinalRecord), emails[i]? = some e → step e = .ok r →
      (mainBatch step emails)[i]? = some r) := by
  refine ⟨by simp [mainBatch], ?_, ?_, ?_⟩
  · intro hid
    unfold mainBatch
    rw [List.map_map]
    apply List.map_congr_left
    intro e _
    simp only [Function.comp_apply]
    cases hstep : step e with
    | ok r => exact hid e r hstep
    | error err => rfl
  · intro i e err hi hstep
    unfold mainBatch
    rw [List.getElem?_map, hi]
    simp [hstep]
  · intro i e r hi hstep
    unfold mainBatch
    rw [List.getElem?_map, hi]
    simp [hstep]

/-- Witness for C6: a three-email batch whose middle step is made to
fail still yields three records, with the failing id null-substituted and
the neighbours untouched. -/
theorem C6_batch_fault_isolation_witness :
    (mainBatch
        (fun e => if e.id = "B" then Except.error "boom" else Except.ok (nullRecord e.id))
        [⟨"A", "sa", "ba"⟩, ⟨"B", "sb", "bb"⟩, ⟨"C", "sc", "bc"⟩]).length = 3 ∧
    (mainBatch
        (fun e => if e.id = "B" then Except.error "boom" else Except.ok (nullRecord e.id))
        [⟨"A", "sa", "ba"⟩, ⟨"B", "sb", "bb"⟩, ⟨"C", "sc", "bc"⟩]).map FinalRecord.id =
      ["A", "B", "C"] ∧
    (mainBatch
        (fun e => if e.id = "B" then Except.error "boom" else Except.ok (nullRecord e.id))
        [⟨"A", "sa", "ba"⟩, ⟨"B", "sb", "bb"⟩, ⟨"C", "sc", "bc"⟩])[1]? =
      some (nullRecord "B") ∧
    (mainBatch
        (fun e => if e.id = "B" then Except.error "boom" else Except.ok (nullRecord e.id))
        [⟨"A", "sa", "ba"⟩, ⟨"B", "sb", "bb"⟩, ⟨"C", "sc", "bc"⟩])[2]? =
      some (nullRecord "C") :=
  ⟨(C6_batch_fault_isolation _ _).1.trans rfl,
   ((C6_batch_fault_isolation _ _).2.1
      (fun e r h => by
        by_cases hB : e.id = "B"
        · rw [if_pos hB] at h
          cases h
        · rw [if_neg hB] at h
          injection h with h2
          rw [← h2]
          rfl)).trans rfl,
   (C6_batch_fault_isolation _ _).2.2.1 1 ⟨"B", "sb", "bb"⟩ "boom" rfl rfl,
   (C6_batch_fault_isolation _ _).2.2.2 2 ⟨"C", "sc", "bc"⟩ (nullRecord "C") rfl rfl⟩

theorem toNat_ofNat_of_lt {n : Nat} (h : n < 55296) : (Char.ofNat n).toNat = n := by
  unfold Char.ofNat
  rw [dif_pos (Or.inl h)]
  rfl

theorem toNat_upChar (c : Char) :
    (upChar c).toNat = if 97 ≤ c.toNat && c.toNat ≤ 122 then c.toNat - 32 else c.toNat := by
  by_cases h : (97 ≤ c.toNat && c.toNat ≤ 122) = true
  · rw [upChar, if_pos h, if_pos h]
    simp only [Bool.and_eq_true, decide_eq_true_eq] at h
    exact toNat_ofNat_of_lt (by omega)
  · rw [upChar, if_neg h, if_neg h]

theorem upChar_upChar (c : Char) : upChar (upChar c) = upChar c := by
  by_cases h : (97 ≤ c.toNat && c.toNat ≤ 122) = true
  · have ht : (upChar c).toNat = c.toNat - 32 := by rw [toNat_upChar, if_pos h]
    simp only [Bool.and_eq_true, decide_eq_true_eq] at h
    have hcond : ¬(97 ≤ (upChar c).toNat && (upChar c).toNat ≤ 122) = true := by
      rw [ht]
      intro hcon
      simp only [Bool.and_eq_true, decide_eq_true_eq] at hcon
      omega
    rw [upChar, if_neg hcond]
  · have hc : upChar c = c := by rw [upChar, if_neg h]
    rw [hc, hc]

theorem isSpaceChar_upChar (c : Char) : isSpaceChar (upChar c) = isSpaceChar c := by
  unfold isSpaceChar
  rw [toNat_upChar]
  by_cases h : (97 ≤ c.toNat && c.toNat ≤ 122) = true
  · rw [if_pos h]
    simp only [Bool.and_eq_true, decide_eq_true_eq] at h
    rw [Bool.eq_iff_iff]
    simp only [Bool.or_eq_true, decide_eq_true_eq]
    omega
  · rw [if_neg h]

theorem dropWhile_map_upChar (l : List Char) :
    (l.map upChar).dropWhile isSpaceChar = (l.dropWhile isSpaceChar).map upChar := by
  induction l with
  | nil => rfl
  | cons c cs ih =>
    rw [List.map_cons, List.dropWhile_cons, List.dropWhile_cons, isSpaceChar_upChar]
    by_cases hc : isSpaceChar c = true
    · rw [if_pos hc, if_pos hc, ih]
    · rw [if_neg hc, if_neg hc, List.map_cons]

theorem head_dropWhile_false (p : Char → Bool) (l : List Char) :
    ∀ a, (l.dropWhile p).head? = some a → p a = false := by
  induction l with
  | nil => intro a ha; cases ha
  | cons c cs ih =>
    intro a ha
    rw [List.dropWhile_cons] at ha
    by_cases hc : p c = true
    · rw [if_pos hc] at ha
      exact ih a ha
    · rw [if_neg hc] at ha
      cases ha
      exact Bool.not_eq_true _ ▸ hc

theorem dropWhile_eq_self_of_head (p : Char → Bool) (l : List Char)
    (h : ∀ a, l.head? = some a → p a = false) : l.dropWhile p = l := by
  cases l with
  | nil => rfl
  | cons c cs =>
    rw [List.dropWhile_cons, if_neg]
    rw [h c rfl]
    simp

theorem getLast?_of_suffix {w l : List Char} (h : w <:+ l) (hw : w ≠ []) :
    l.getLast? = w.getLast? := by
  rcases h with ⟨t, rfl⟩
  rw [List.getLast?_eq_head?_reverse, List.reverse_append, List.head?_append,
    ← List.getLast?_eq_head?_reverse]
  cases hlast : w.getLast? with
  | none =>
    rw [List.getLast?_eq_none_iff] at hlast
    exact absurd hlast hw
  | some a => rfl

/-- Definition `stripList` is the two-sided whitespace trim on character lists
underlying `stripStr`. -/
def stripList (l : List Char) : List Char :=
  ((l.dropWhile isSpaceChar).reverse.dropWhile isSpaceChar).reverse

theorem stripStr_eq_stripList (s : String) : (stripStr s).data = stripList s.data := rfl

theorem head_stripList_false (l : List Char) :
    ∀ a, (stripList l).head? = some a → isSpaceChar a = false := by
  intro a ha
  unfold stripList at ha
  rw [List.head?_reverse] at ha
  by_cases hnil :
      (l.dropWhile isSpaceChar).reverse.dropWhile isSpaceChar = []
  · rw [hnil] at ha
    cases ha
  · rw [← getLast?_of_suffix (List.dropWhile_suffix isSpaceChar) hnil,
      List.getLast?_reverse] at ha
    exact head_dropWhile_false isSpaceChar l a ha

theorem stripList_idem (l : List Char) : stripList (stripList l) = stripList l := by
  have h1 : (stripList l).dropWhile isSpaceChar = stripList l :=
    dropWhile_eq_self_of_head _ _ (head_stripList_false l)
  have h2 : ∀ a, ((stripList l).reverse).head? = some a → isSpaceChar a = false := by
    intro a ha
    unfold stripList at ha
    rw [List.reverse_reverse] at ha
    exact head_dropWhile_false isSpaceChar _ a ha
  have h3 : ((stripList l).reverse).dropWhile isSpaceChar = (stripList l).reverse :=
    dropWhile_eq_self_of_head _ _ h2
  show (((stripList l).dropWhile isSpaceChar).reverse.dropWhile isSpaceChar).reverse = stripList l
  rw [h1, h3, List.reverse_reverse]

theorem stripList_map_upChar (l : List Char) :
    stripList (l.map upChar) = (stripList l).map upChar := by
  unfold stripList
  rw [dropWhile_map_upChar, ← List.map_reverse, dropWhile_map_upChar, List.map_reverse]

theorem rhe_intCast (n : ℤ) : rhe (n : ℚ) = n := by
  unfold rhe
  rw [Int.floor_intCast, sub_self]
  norm_num

theorem round2_idem (q : ℚ) : round2 (round2 q) = round2 q := by
  unfold round2
  rw [div_mul_cancel₀ _ (by norm_num : (100 : ℚ) ≠ 0), rhe_intCast]

theorem round_weight_some_fixed {v : RawVal} {y : ℚ} (h : round_weight v = some y) :
    round2 y = y := by
  cases v with
  | vnone => cases h
  | vnum q =>
    dsimp only [round_weight, pyFloat] at h
    injection h with h2
    rw [← h2, round2_idem]
  | vstr s =>
    dsimp only [round_weight, pyFloat] at h
    cases hp : parseFloatString s with
    | none => rw [hp] at h; cases h
    | some q =>
      rw [hp] at h
      injection h with h2
      rw [← h2, round2_idem]
  | vbool b =>
    dsimp only [round_weight, pyFloat] at h
    injection h with h2
    rw [← h2, round2_idem]

theorem round_weight_second_pass (v : RawVal) :
    round_weight (optQToRaw (round_weight v)) = round_weight v := by
  cases hX : round_weight v with
  | none => rfl
  | some y =>
    show some (round2 y) = some y
    rw [round_weight_some_fixed hX]

theorem norm_incoterm_some {v : RawVal} {t : String} (h : norm_incoterm v = some t) :
    t = upperStr (stripStr (pyStr v)) ∧ t ≠ "" := by
  cases v with
  | vnone => cases h
  | vnum q =>
    dsimp only [norm_incoterm] at h
    split at h
    · cases h
    · next hs =>
      injection h with h2
      subst h2
      exact ⟨rfl, hs⟩
  | vstr s =>
    dsimp only [norm_incoterm] at h
    split at h
    · cases h
    · next hs =>
      injection h with h2
      subst h2
      exact ⟨rfl, hs⟩
  | vbool b =>
    dsimp only [norm_incoterm] at h
    split at h
    · cases h
    · next hs =>
      injection h with h2
      subst h2
      exact ⟨rfl, hs⟩

theorem upperStr_stripStr_invariant (s : String) :
    upperStr (stripStr (upperStr (stripStr s))) = upperStr (stripStr s) := by
  show String.mk ((stripList ((stripList s.data).map upChar)).map upChar) =
    String.mk ((stripList s.data).map upChar)
  apply congrArg String.mk
  rw [stripList_map_upChar, stripList_idem, List.map_map]
  apply List.map_congr_left
  intro a _
  simp only [Function.comp_apply]
  exact upChar_upChar a

theorem norm_incoterm_str_of_eq {x : String} (hx : upperStr (stripStr x) = x)
    (hne : x ≠ "") : norm_incoterm (.vstr x) = some x := by
  show (if upperStr (stripStr (pyStr (RawVal.vstr x))) = "" then none
    else some (upperStr (stripStr (pyStr (RawVal.vstr x))))) = some x
  rw [show pyStr (RawVal.vstr x) = x from rfl, hx, if_neg hne]

theorem norm_incoterm_second_pass (v : RawVal) :
    norm_incoterm (optSToRaw (norm_incoterm v)) = norm_incoterm v := by
  cases hX : norm_incoterm v with
  | none => rfl
  | some t =>
    obtain ⟨ht, hne⟩ := norm_incoterm_some hX
    have hfix : upperStr (stripStr t) = t := by
      rw [ht]
      exact upperStr_stripStr_invariant (pyStr v)
    exact norm_incoterm_str_of_eq hfix hne

/-- C8: the Normalizer is idempotent — re-validating an already finalized
record (2-decimal rounding with null coercion on weight and volume,
trim-and-upper-case with empty-to-null coercion on the incoterm, boolean
`is_dangerous`) changes nothing. -/
theorem C8_normalizer_idempotent (r : RawRecord) :
    normalizeRecord (recordToRaw (normalizeRecord r)) = normalizeRecord r := by
  unfold normalizeRecord recordToRaw
  dsimp only
  simp only [FinalRecord.mk.injEq]
  exact ⟨trivial, trivial, trivial, trivial, trivial, trivial, norm_incoterm_second_pass _,
    round_weight_second_pass _, round_weight_second_pass _, trivial⟩
